import Mathlib

/-!
# Verification of the property-recommender data-gathering pipeline

A shallow embedding, in Lean 4, of the algorithmic core of the
`property_recommender` repository: the fuzzy location resolver and
parameter builder (`query_builder.py`), the paginated fetch executor
(`fetch_executor.py`) and the schema normalizer (`data_normalizer.py`).
Python dictionaries are modelled as association lists, JSON values as an
inductive type, and the external network / text-generation capability as
explicit oracles, so that every function of the source becomes a
computable Lean definition that can be evaluated on concrete inputs.
-/

set_option maxRecDepth 4000

namespace PropertyRecommender

/-! ## JSON values and Python-dict records -/

/-- JSON values as delivered by `json.loads` / produced by the pipeline.
Python booleans, integers and floats are kept as distinct constructors
because the normalizer's type checks distinguish them (`isinstance(v, int)
and not isinstance(v, bool)` etc.).  Float payloads are irrelevant to any
claim, so `float` is an opaque tag. -/
inductive JVal where
  | null : JVal
  | bool (b : Bool) : JVal
  | int (n : Int) : JVal
  | float : JVal
  | str (s : String) : JVal
  | arr (xs : List JVal) : JVal
  | obj (fields : List (String × JVal)) : JVal

/-- A Python dict with string keys, in insertion order. -/
abbrev JRecord := List (String × JVal)

/-- `record.get(key)` returning `None` for an absent key; Python conflates
an absent key's `None` with an explicit JSON `null`, which `getOrNull`
mirrors by returning `JVal.null` in the absent case. -/
def getOrNull (rec : JRecord) (key : String) : JVal :=
  match rec with
  | [] => .null
  | (k, v) :: rest => if k = key then v else getOrNull rest key

/-- `key in record`. -/
def hasKey (rec : JRecord) (key : String) : Bool :=
  match rec with
  | [] => false
  | (k, _) :: rest => if k = key then true else hasKey rest key

/-- Python `record[key] = v`: replace in place when the key exists,
append otherwise (dicts preserve first-insertion order). -/
def setKey (rec : JRecord) (key : String) (v : JVal) : JRecord :=
  match rec with
  | [] => [(key, v)]
  | (k, w) :: rest => if k = key then (key, v) :: rest else (k, w) :: setKey rest key v

/-! ## Fuzzy matching (`query_builder.fuzzy_match_item`) -/

/-- `needle in hay` for lists (contiguous sublist test), mirroring
Python's `in` operator on strings via their character lists. -/
def listContains (needle hay : List Char) : Bool :=
  match hay with
  | [] => needle.isEmpty
  | c :: rest => needle.isPrefixOf (c :: rest) || listContains needle rest

/-- Python `sub in s` on strings. -/
def strIn (sub s : String) : Bool :=
  listContains sub.data s.data

/-- Python `s.lower()` (character-wise lower-casing). -/
def pyLower (s : String) : String := ⟨s.data.map Char.toLower⟩

/-- Python `s.strip()`: drop leading and trailing whitespace. -/
def pyStrip (s : String) : String :=
  ⟨((s.data.dropWhile Char.isWhitespace).reverse.dropWhile Char.isWhitespace).reverse⟩

/-- Tier 1 of `fuzzy_match_item`: first item whose name, lower-cased,
equals the lower-cased, stripped target (`candidate.lower() == target`;
the `isinstance(candidate, str)` guard is vacuous here because a missing
name defaults to `""`). -/
def tierExact {α : Type} (target : String) (items : List α) (nameOf : α → Option String) :
    Option α :=
  items.find? (fun it => pyLower ((nameOf it).getD "") == target)

/-- Tier 2 of `fuzzy_match_item`: first item whose lower-cased name
contains, or is contained in, the target. -/
def tierSub {α : Type} (target : String) (items : List α) (nameOf : α → Option String) :
    Option α :=
  items.find? (fun it =>
    let c := pyLower ((nameOf it).getD "")
    strIn target c || strIn c target)

/-- Tier 3 of `fuzzy_match_item`: `difflib.get_close_matches(target, names,
n=1, cutoff=0.6)` is modelled by an abstract oracle `cm`; the names list
keeps exactly the items whose name field is present (the
`isinstance(item.get(name_key), str)` filter), and the result is looked up
back in the item list by exact name equality. -/
def tierClose {α : Type} (target : String) (items : List α) (nameOf : α → Option String)
    (cm : String → List String → Option String) : Option α :=
  match cm target (items.filterMap nameOf) with
  | some c0 => items.find? (fun it => nameOf it == some c0)
  | none => none

/-- `fuzzy_match_item(name, items, name_key)`: exact, then substring, then
approximate, first success wins.  `nameOf` plays the role of `name_key`
(projection to the item's name field, `none` when the key is absent) and
`cm` the role of `difflib.get_close_matches`. -/
def fuzzy_match_item {α : Type} (name : String) (items : List α)
    (nameOf : α → Option String) (cm : String → List String → Option String) : Option α :=
  let target := pyStrip (pyLower name)
  match tierExact target items nameOf with
  | some it => some it
  | none =>
    match tierSub target items nameOf with
    | some it => some it
    | none => tierClose target items nameOf cm

/-! ## Location taxonomy and query builder (`query_builder.build_params_from_form`) -/

/-- An abstract stand-in for `difflib.get_close_matches(target, names, n=1,
cutoff=0.6)`: the approximate-matching oracle. -/
abbrev CM := String → List String → Option String

/-- A suburb node of the Trade Me locality taxonomy. -/
structure Suburb where
  Name : Option String
  SuburbId : Int
deriving DecidableEq

/-- A district node, with its suburb list (`d.get("Suburbs", [])`). -/
structure District where
  Name : Option String
  DistrictId : Int
  Suburbs : List Suburb
deriving DecidableEq

/-- A region node, with its district list (`r.get("Districts", [])`). -/
structure Region where
  Name : Option String
  LocalityId : Int
  Districts : List District
deriving DecidableEq

/-- One entry of the `match_hints` dict. -/
structure Hint where
  input : Option String
  candidate : Option String
  id : Option Int
deriving DecidableEq

/-- The `match_hints` dict with its three fixed entries. -/
structure MatchHints where
  region : Hint
  district : Hint
  suburb : Hint
deriving DecidableEq

/-- Step 1 of the location resolution: scan the regions for the first one
whose district list fuzzy-matches the named district, returning the region
together with the matched district. -/
def locStep1 (fd : String) (regions : List Region) (cm : CM) : Option (Region × District) :=
  regions.findSome? (fun r => (fuzzy_match_item fd r.Districts (fun d => d.Name) cm).map
    (fun d => (r, d)))

/-- Step 3 of the location resolution (global suburb fallback): scan every
district of every region for the first fuzzy suburb match. -/
def locStep3 (fs : String) (regions : List Region) (cm : CM) :
    Option (Region × District × Suburb) :=
  regions.findSome? (fun r => r.Districts.findSome? (fun d =>
    (fuzzy_match_item fs d.Suburbs (fun s => s.Name) cm).map (fun s => (r, d, s))))

/-- Block 1 of the location resolution: `if form_district:` guard (empty
string is falsy) followed by the district scan. -/
def locDistrictStep (fd : Option String) (regions : List Region) (cm : CM) :
    Option (Region × District) :=
  match fd with
  | some fd' => if fd' = "" then none else locStep1 fd' regions cm
  | none => none

/-- Block 2: `if form_suburb and district_obj:` followed by the fuzzy
suburb match within the matched district. -/
def locSuburbInDistrict (fs : Option String) (dopt : Option District) (cm : CM) :
    Option Suburb :=
  match fs, dopt with
  | some fs', some d =>
    if fs' = "" then none else fuzzy_match_item fs' d.Suburbs (fun s => s.Name) cm
  | _, _ => none

/-- Block 3: `if form_suburb and not suburb_obj:` followed by the global
suburb scan. -/
def locGlobalSuburb (fs : Option String) (sopt : Option Suburb) (regions : List Region)
    (cm : CM) : Option (Region × District × Suburb) :=
  match fs, sopt with
  | some fs', none => if fs' = "" then none else locStep3 fs' regions cm
  | _, _ => none

/-- Block 4: `if not (region_obj or district_obj or suburb_obj) and
form_region:` followed by the direct region match. -/
def locRegionIfMissing (fr : Option String) (ro : Option Region) (dopt : Option District)
    (sopt : Option Suburb) (regions : List Region) (cm : CM) : Option Region :=
  if ro.isNone ∧ dopt.isNone ∧ sopt.isNone then
    match fr with
    | some fr' => if fr' = "" then none else fuzzy_match_item fr' regions (fun r => r.Name) cm
    | none => none
  else ro

/-- Block 5, first half: `if suburb_obj and not district_obj:` search the
taxonomy for the district (and region) owning the resolved suburb's id. -/
def locBackfillDistrict (sopt : Option Suburb) (dopt : Option District)
    (regions : List Region) : Option (Region × District) :=
  match sopt, dopt with
  | some s, none =>
    regions.findSome? (fun r => r.Districts.findSome? (fun d =>
      if d.Suburbs.any (fun s2 => s2.SuburbId = s.SuburbId) then some (r, d) else none))
  | _, _ => none

/-- Block 5, second half: `if district_obj and not region_obj:` search
the taxonomy for the region owning the resolved district's id. -/
def locBackfillRegion (dopt : Option District) (ro : Option Region)
    (regions : List Region) : Option Region :=
  match dopt, ro with
  | some d, none =>
    regions.findSome? (fun r =>
      if r.Districts.any (fun d2 => d2.DistrictId = d.DistrictId) then some r else none)
  | _, _ => ro

/-- Location-resolution steps 1–5 of `build_params_from_form`: district
first, suburb within the matched district, global suburb fallback, region
last, then back-propagation of missing ancestors.  Python truthiness of the
form strings (`if form_district:`) makes the empty string behave like an
absent field. -/
def locResolve (form_region form_district form_suburb : Option String)
    (regions : List Region) (cm : CM) :
    Option Region × Option District × Option Suburb :=
  -- 1) If district provided, match district first
  let rd : Option (Region × District) := locDistrictStep form_district regions cm
  let region_obj1 : Option Region := rd.map (fun p => p.1)
  let district_obj1 : Option District := rd.map (fun p => p.2)
  -- 2) If suburb provided within matched district
  let suburb_obj2 : Option Suburb := locSuburbInDistrict form_suburb district_obj1 cm
  -- 3) Global suburb fallback if no district or no suburb match
  let g : Option (Region × District × Suburb) :=
    locGlobalSuburb form_suburb suburb_obj2 regions cm
  let region_obj3 : Option Region := match g with | some (r, _, _) => some r | none => region_obj1
  let district_obj3 : Option District :=
    match g with | some (_, d, _) => some d | none => district_obj1
  let suburb_obj3 : Option Suburb := match g with | some (_, _, s) => some s | none => suburb_obj2
  -- 4) Region match if still missing
  let region_obj4 : Option Region :=
    locRegionIfMissing form_region region_obj3 district_obj3 suburb_obj3 regions cm
  -- 5) Propagate region or district from deeper matches
  let dr5 : Option (Region × District) := locBackfillDistrict suburb_obj3 district_obj3 regions
  let region_obj5 : Option Region := match dr5 with | some (r, _) => some r | none => region_obj4
  let district_obj5 : Option District :=
    match dr5 with | some (_, d) => some d | none => district_obj3
  let region_obj6 : Option Region := locBackfillRegion district_obj5 region_obj5 regions
  (region_obj6, district_obj5, suburb_obj3)

/-- Populate the `match_hints` dict from the resolved objects. -/
def hintsOf (form_region form_district form_suburb : Option String)
    (ro : Option Region) (dobj : Option District) (so : Option Suburb) : MatchHints :=
  { region := { input := form_region, candidate := ro.bind (fun r => r.Name),
                id := ro.map (fun r => r.LocalityId) }
    district := { input := form_district, candidate := dobj.bind (fun d => d.Name),
                  id := dobj.map (fun d => d.DistrictId) }
    suburb := { input := form_suburb, candidate := so.bind (fun s => s.Name),
                id := so.map (fun s => s.SuburbId) } }

/-- A query-parameter value: scalar id/number or comma-joined string. -/
inductive PVal where
  | int (n : Int) : PVal
  | str (s : String) : PVal
deriving DecidableEq

/-- The query-parameter dict (all keys written by the builder are distinct,
so insertion order is enough). -/
abbrev Params := List (String × PVal)

/-- Association lookup in the parameter list. -/
def getParam (ps : Params) (key : String) : Option PVal :=
  match ps with
  | [] => none
  | (k, v) :: rest => if k = key then some v else getParam rest key

/-- `form.get("property_types")` can hold a single string or a list. -/
inductive StrOrList where
  | one (s : String) : StrOrList
  | many (ss : List String) : StrOrList
deriving DecidableEq

/-- Python truthiness of an optional string-or-list form value. -/
def solTruthy : Option StrOrList → Bool
  | some (.one s) => !(s == "")
  | some (.many ss) => !ss.isEmpty
  | none => false

/-- `vals = types if isinstance(types, list) else [types]`. -/
def solVals : StrOrList → List String
  | .one s => [s]
  | .many ss => ss

/-- One entry of the property-type / sales-method metadata vocabulary. -/
structure VocabItem where
  Key : Option String
  Value : Option String
deriving DecidableEq

/-- `item.get("Key", item.get("Value", ""))`: the dict key used in
`choices`. -/
def keyOf (it : VocabItem) : String := it.Key.getD (it.Value.getD "")

/-- The per-value selection loop over a categorical multi-value field:
exact key hit, else first case-insensitive key hit, else `ValueError`. -/
def selectValues (label : String) (vals choices : List String) : Except String (List String) :=
  match vals with
  | [] => .ok []
  | v :: rest =>
    match (if choices.contains v then some v
           else choices.find? (fun k => pyLower k == pyLower v)) with
    | some k =>
      match selectValues label rest choices with
      | .ok ks => .ok (k :: ks)
      | .error e => .error e
    | none => .error (label ++ v)

/-- The structured search-request form produced by the LLM. -/
structure Form where
  region : Option String := none
  district : Option String := none
  suburb : Option String := none
  min_price : Option Int := none
  max_price : Option Int := none
  min_bedrooms : Option Int := none
  max_bedrooms : Option Int := none
  min_bathrooms : Option Int := none
  max_bathrooms : Option Int := none
  min_carparks : Option Int := none
  max_carparks : Option Int := none
  property_types : Option StrOrList := none
  sales_methods : Option StrOrList := none
deriving DecidableEq

/-- The location parameter from the deepest resolved level: suburb, else
district, else region, else nothing. -/
def locationParams (rds : Option Region × Option District × Option Suburb) : Params :=
  match rds.2.2, rds.2.1, rds.1 with
  | some s, _, _ => [("suburb", .int s.SuburbId)]
  | none, some d, _ => [("district", .int d.DistrictId)]
  | none, none, some r => [("region", .int r.LocalityId)]
  | none, none, none => []

/-- The `numeric_map` table: form key paired with parameter key. -/
def numericPairs (form : Form) : List (Option Int × String) :=
  [(form.min_price, "price_min"), (form.max_price, "price_max"),
   (form.min_bedrooms, "bedrooms_min"), (form.max_bedrooms, "bedrooms_max"),
   (form.min_bathrooms, "bathrooms_min"), (form.max_bathrooms, "bathrooms_max"),
   (form.min_carparks, "car_spaces_min"), (form.max_carparks, "car_spaces_max")]

/-- The numeric-range loop: present form values are copied, absent ones
omitted. -/
def numericParams (form : Form) : Params :=
  (numericPairs form).filterMap (fun p => p.1.map (fun n => (p.2, PVal.int n)))

/-- The parameter dict just before the categorical fields are added. -/
def baseParams (form : Form) (rds : Option Region × Option District × Option Suburb) :
    Params :=
  locationParams rds ++ numericParams form

/-- `build_params_from_form(form)`: location resolution and match hints,
location parameter from the deepest match, numeric range mapping, then the
two vocabulary-validated categorical fields.  The regions taxonomy and the
vocabularies (`get_regions()`, `get_property_types()`,
`get_sales_methods()`) and the `difflib` oracle are explicit arguments;
`ValueError` is the `Except.error` case. -/
def build_params_from_form (form : Form) (regions : List Region)
    (ptypes smethods : List VocabItem) (cm : CM) : Except String (Params × MatchHints) :=
  let rds := locResolve form.region form.district form.suburb regions cm
  let hints := hintsOf form.region form.district form.suburb rds.1 rds.2.1 rds.2.2
  let params1 := baseParams form rds
  let ptStep : Except String Params :=
    if solTruthy form.property_types then
      match selectValues "Unknown property_type: "
          (solVals (form.property_types.getD (.many []))) (ptypes.map keyOf) with
      | .ok sel => .ok (params1 ++ [("property_type", .str (String.intercalate "," sel))])
      | .error e => .error e
    else .ok params1
  match ptStep with
  | .error e => .error e
  | .ok params2 =>
    if solTruthy form.sales_methods then
      match selectValues "Unknown sales_method: "
          (solVals (form.sales_methods.getD (.many []))) (smethods.map keyOf) with
      | .ok sel => .ok (params2 ++ [("sales_method", .str (String.intercalate "," sel))], hints)
      | .error e => .error e
    else .ok (params2, hints)

/-! ## Fetch executor (`fetch_executor.fetch_raw_properties`) -/

/-- One item of a search-result page; `ListingId` is `none` when the key is
absent or holds JSON `null` (both read back as Python `None`). -/
structure SearchItem where
  ListingId : Option Int
deriving DecidableEq

/-- The body of one successful search-page response:
`{List: array, TotalCount: int, PageSize: int}`. -/
structure PageData where
  items : List SearchItem
  TotalCount : Int
  PageSize : Int
deriving DecidableEq

/-- The outcome of one `session.get` attempt on the search endpoint:
a usable response, HTTP 429, HTTP 5xx, or an exception raised during the
request or by `raise_for_status()` (timeouts, connection errors, other
4xx statuses, …). -/
inductive ReqOutcome where
  | success (d : PageData) : ReqOutcome
  | rate : ReqOutcome
  | server : ReqOutcome
  | failure : ReqOutcome

/-- The inner per-page retry loop of `fetch_raw_properties` (the
`while True` over `session.get`), driven by an oracle giving the outcome
of each attempt.  Returns the recorded backoff waits (seconds) together
with the loop's result; `none` means the loop was still running when the
`fuel` bound ran out.  The `FetchError` raised inside the `try` block on
`retries >= 3` is itself caught by the `except` clause and re-raised
there, so both raise sites collapse to the same error outcome.  In the
generic-exception branch the source neither sleeps nor increments
`retries` (`# else, retry`). -/
def searchRetryGo (attempts : Nat → ReqOutcome) :
    Nat → Nat → Nat → List Nat → List Nat × Option (Except String PageData)
  | 0, _, _, waits => (waits, none)
  | fuel + 1, attempt, retries, waits =>
    match attempts attempt with
    | .success d => (waits, some (.ok d))
    | .rate =>
      let waits' := waits ++ [60]
      let retries' := retries + 1
      if retries' ≥ 3 then (waits', some (.error "FetchError"))
      else searchRetryGo attempts fuel (attempt + 1) retries' waits'
    | .server =>
      let waits' := waits ++ [5 * (retries + 1)]
      let retries' := retries + 1
      if retries' ≥ 3 then (waits', some (.error "FetchError"))
      else searchRetryGo attempts fuel (attempt + 1) retries' waits'
    | .failure =>
      if retries ≥ 3 then (waits, some (.error "FetchError"))
      else searchRetryGo attempts fuel (attempt + 1) retries waits

/-- The per-page retry loop started as the source starts it:
`retries = 0`, no waits recorded yet, first attempt. -/
def searchRetry (attempts : Nat → ReqOutcome) (fuel : Nat) :
    List Nat × Option (Except String PageData) :=
  searchRetryGo attempts fuel 1 0 []

/-- The ListingId-collection loop over one page's items: keep exactly the
truthy `item.get('ListingId')` values, in order (`if listing_id:` drops
absent, null and zero ids). -/
def pageListingIds : List SearchItem → List Int
  | [] => []
  | it :: rest =>
    match it.ListingId with
    | some n => if n ≠ 0 then n :: pageListingIds rest else pageListingIds rest
    | none => pageListingIds rest

/-- Python truthiness of the optional `max_pages` / `max_records` ints. -/
def natTruthy : Option Nat → Bool
  | some n => !(n == 0)
  | none => false

/-- The search-pagination loop of `fetch_raw_properties`, with every page
request assumed successful (`server page` is the parsed body of page
`page`).  After each page the stop conditions run in source order: zero
items, `max_pages`, `max_records`, `page * PageSize >= TotalCount`
(the source's `fetched >= total`); otherwise the loop advances.  Returns
the collected listing ids and the number of the last page fetched;
`none` means the `fuel` bound ran out first. -/
def fetchGo (server : Nat → PageData) (mp mr : Option Nat) :
    Nat → Nat → List Int → Option (List Int × Nat)
  | 0, _, _ => none
  | fuel + 1, page, acc =>
    let d := server page
    let count := d.items.length
    let ids := acc ++ pageListingIds d.items
    let fetched : Int := (page : Int) * d.PageSize
    if count = 0 then some (ids, page)
    else if natTruthy mp ∧ page ≥ mp.getD 0 then some (ids, page)
    else if natTruthy mr ∧ ids.length ≥ mr.getD 0 then some (ids, page)
    else if fetched ≥ d.TotalCount then some (ids, page)
    else fetchGo server mp mr fuel (page + 1) ids

/-- The whole search phase of `fetch_raw_properties`: run the pagination
loop from page 1, then apply the post-loop `max_records` truncation
(`all_listing_ids[:max_records]`). -/
def fetch_search_ids (server : Nat → PageData) (mp mr : Option Nat) (fuel : Nat) :
    Option (List Int × Nat) :=
  match fetchGo server mp mr fuel 1 [] with
  | some (ids, pages) =>
    some (if natTruthy mr ∧ ids.length > mr.getD 0 then ids.take (mr.getD 0) else ids, pages)
  | none => none

/-! ## Schema normalizer (`data_normalizer.DataNormalizer`) -/

namespace JVal

/-- `isinstance(v, list)`. -/
def isArrB : JVal → Bool | .arr _ => true | _ => false

/-- `isinstance(v, dict)`. -/
def isObjB : JVal → Bool | .obj _ => true | _ => false

/-- `isinstance(v, str)`. -/
def isStrB : JVal → Bool | .str _ => true | _ => false

/-- A non-boolean integer value. -/
def isIntB : JVal → Bool | .int _ => true | _ => false

/-- `isinstance(v, bool)`. -/
def isBoolB : JVal → Bool | .bool _ => true | _ => false

/-- A float value. -/
def isFloatB : JVal → Bool | .float => true | _ => false

/-- `v is None`. -/
def isNullB : JVal → Bool | .null => true | _ => false

end JVal

/-- `isinstance(v, int)`: in Python this is also true of booleans, which
is why the source's integer check subtracts them explicitly. -/
def pyIsInt (v : JVal) : Bool := v.isIntB || v.isBoolB

/-- The `"type"` entry of one schema property: absent, a single type name,
or a list of type names (`types = allowed if isinstance(allowed, list)
else [allowed]`). -/
inductive TypeDecl where
  | missing : TypeDecl
  | one (t : String) : TypeDecl
  | many (ts : List String) : TypeDecl
deriving DecidableEq

/-- The `types` list computed by `_apply_schema_defaults`; a `"type"`-less
property yields `[None]`. -/
def typesOf : TypeDecl → List (Option String)
  | .missing => [none]
  | .one t => [some t]
  | .many ts => ts.map some

/-- The `properties` map of the target JSON Schema. -/
abbrev SchemaProps := List (String × TypeDecl)

/-- The `matches_type(v, t)` helper of `_apply_schema_defaults`, including
its Python quirks: `"integer"` is `isinstance(v, int) and not
isinstance(v, bool)`, while `"number"` is `isinstance(v, (int, float))`
and therefore accepts booleans. -/
def matches_type (v : JVal) (t : Option String) : Bool :=
  (t == some "array" && v.isArrB) ||
  (t == some "object" && v.isObjB) ||
  (t == some "string" && v.isStrB) ||
  (t == some "integer" && pyIsInt v && !v.isBoolB) ||
  (t == some "number" && (pyIsInt v || v.isFloatB)) ||
  (t == some "boolean" && v.isBoolB) ||
  (t == some "null" && v.isNullB)

/-- The default-assignment chain of `_apply_schema_defaults`: the canonical
zero value of the first allowed type in the fixed preference order
array, object, string, integer/number, boolean, else null. -/
def defaultFor (types : List (Option String)) : JVal :=
  if types.contains (some "array") then .arr []
  else if types.contains (some "object") then .obj []
  else if types.contains (some "string") then .str ""
  else if types.contains (some "integer") || types.contains (some "number") then .int 0
  else if types.contains (some "boolean") then .bool false
  else .null

/-- The body of `_apply_schema_defaults`'s loop for one schema property:
skip when the value is `None` and `"null"` is allowed, otherwise replace
a missing or type-mismatched value by its canonical default. -/
def applyOne (rec : JRecord) (key : String) (td : TypeDecl) : JRecord :=
  let types := typesOf td
  let val := getOrNull rec key
  if val.isNullB && types.contains (some "null") then rec
  else if val.isNullB || !(types.any (fun t => matches_type val t)) then
    setKey rec key (defaultFor types)
  else rec

/-- `DataNormalizer._apply_schema_defaults`: fold the per-property update
over every schema property, mutating the record in place. -/
def applyDefaults (props : SchemaProps) (rec : JRecord) : JRecord :=
  props.foldl (fun r kv => applyOne r kv.1 kv.2) rec

/-- `record.get(key)` distinguishing absence from an explicit null. -/
def getVal? : JRecord → String → Option JVal
  | [], _ => none
  | (k, v) :: rest, key => if k = key then some v else getVal? rest key

/-- JSON Schema type semantics as enforced by the `jsonschema` library
(which, unlike the Python `isinstance` checks above, never lets a boolean
satisfy `"integer"` or `"number"`). -/
def jsType (v : JVal) (t : String) : Bool :=
  match t with
  | "array" => v.isArrB
  | "object" => v.isObjB
  | "string" => v.isStrB
  | "integer" => v.isIntB
  | "number" => v.isIntB || v.isFloatB
  | "boolean" => v.isBoolB
  | "null" => v.isNullB
  | _ => false

/-- A value against one property's `"type"` declaration. -/
def jsTypeOk (v : JVal) (td : TypeDecl) : Bool :=
  match td with
  | .missing => true
  | .one t => jsType v t
  | .many ts => ts.any (fun t => jsType v t)

/-- `jsonschema.validate(instance, schema)` restricted to the schema
fragment the pipeline uses — the `required` list and the per-property
`"type"` declarations — returning `none` on success and the failing
validator's message otherwise (the message text stands in for
`ValidationError.message`). -/
def validateMsg (props : SchemaProps) (required : List String) (rec : JRecord) :
    Option String :=
  match required.find? (fun k => !hasKey rec k) with
  | some k => some (k ++ " is a required property")
  | none =>
    match props.find? (fun kv =>
        match getVal? rec kv.1 with
        | some v => !jsTypeOk v kv.2
        | none => false) with
    | some kv => some (kv.1 ++ " is not of the expected type")
    | none => none

/-- What one text-generation call yields for `_normalize_one`: no
function call at all, a function call whose arguments fail `json.loads`,
or a parsed JSON payload. -/
inductive LLMResponse where
  | noCall : LLMResponse
  | badJSON : LLMResponse
  | payload (v : JVal) : LLMResponse

/-- Step 4 of `_normalize_one`: unwrap a single-element array. -/
def unwrapSingle : JVal → JVal
  | .arr [x] => x
  | v => v

/-- The attempt loop of `_normalize_one` (`for attempt in range(1,
retry_limit + 1)`), driven by an oracle giving each attempt's response.
`rem` counts the iterations the `for` loop still has; falling off the
loop raises the generic retry-limit error, while a validation failure on
the final attempt raises the error naming the validator's message. -/
def normOneGo (props : SchemaProps) (required : List String) (limit : Nat)
    (responses : Nat → LLMResponse) : Nat → Nat → Except String JRecord
  | 0, _ => .error "Exceeded retry limit normalizing record."
  | rem + 1, attempt =>
    match responses attempt with
    | .noCall => normOneGo props required limit responses rem (attempt + 1)
    | .badJSON => normOneGo props required limit responses rem (attempt + 1)
    | .payload v =>
      match unwrapSingle v with
      | .obj fields =>
        let defaulted := applyDefaults props fields
        match validateMsg props required defaulted with
        | none => .ok defaulted
        | some msg =>
          if attempt < limit then normOneGo props required limit responses rem (attempt + 1)
          else .error ("Failed to validate record after " ++ toString limit ++
            " attempts: " ++ msg)
      | _ => normOneGo props required limit responses rem (attempt + 1)

/-- `DataNormalizer._normalize_one(record)`: the oracle is keyed by the
raw record (which the source serializes into the conversation) and the
attempt number. -/
def normalize_one (props : SchemaProps) (required : List String) (limit : Nat)
    (oracle : JVal → Nat → LLMResponse) (raw : JVal) : Except String JRecord :=
  normOneGo props required limit (oracle raw) limit 1

/-- The record loop of `DataNormalizer.normalize`: one record's failure
aborts the batch (the exception propagates). -/
def normalizeGo (props : SchemaProps) (required : List String) (limit : Nat)
    (oracle : JVal → Nat → LLMResponse) : List JVal → Except String (List JRecord)
  | [] => .ok []
  | r :: rest =>
    match normalize_one props required limit oracle r with
    | .ok rec =>
      match normalizeGo props required limit oracle rest with
      | .ok cleaned => .ok (rec :: cleaned)
      | .error e => .error e
    | .error e => .error e

/-- `DataNormalizer.normalize(raw_data)`: `records = raw_data if
isinstance(raw_data, list) else [raw_data]`, then the per-record loop. -/
def normalize (props : SchemaProps) (required : List String) (limit : Nat)
    (oracle : JVal → Nat → LLMResponse) (raw_data : JVal) : Except String (List JRecord) :=
  let records := match raw_data with
    | .arr xs => xs
    | v => [v]
  normalizeGo props required limit oracle records

/-! ## Concrete fixtures used in scenario theorems -/

/-- A minimal candidate shape for exercising `fuzzy_match_item` directly:
a name field plus a tag distinguishing the candidates. -/
structure NamedItem where
  Name : Option String
  tag : Nat
deriving DecidableEq

/-- A `difflib` oracle that never finds a close match. -/
def cmNone : CM := fun _ _ => none

/-- Two candidates: a substring match ahead of an exact (modulo
whitespace) match. -/
def c1items : List NamedItem := [⟨some "ax", 1⟩, ⟨some " x ", 2⟩]

/-- `count` search items with consecutive listing ids from `start`. -/
def mkItems (start count : Nat) : List SearchItem :=
  (List.range count).map (fun i => ⟨some ((start : Int) + (i : Int))⟩)

/-- The spec's pagination scenario: page size 20, `TotalCount = 45`,
pages of 20, 20 and 5 items. -/
def server45 : Nat → PageData := fun page =>
  if page = 1 then ⟨mkItems 1 20, 45, 20⟩
  else if page = 2 then ⟨mkItems 21 20, 45, 20⟩
  else if page = 3 then ⟨mkItems 41 5, 45, 20⟩
  else ⟨[], 45, 20⟩

/-- A server with one item per page and a huge reported total, for
exercising the `max_pages` cap. -/
def serverOnes : Nat → PageData := fun _ => ⟨[⟨some 1⟩], 100, 1⟩

/-- One page whose items mix truthy, zero and absent listing ids. -/
def serverMix : Nat → PageData := fun _ => ⟨[⟨some 5⟩, ⟨some 0⟩, ⟨none⟩, ⟨some 7⟩], 4, 4⟩

/-- Every page has two items, none with a truthy listing id. -/
def serverDrop : Nat → PageData := fun _ => ⟨[⟨some 0⟩, ⟨none⟩], 10, 2⟩

/-- A capability that returns unparseable JSON on the first two calls and
a valid, schema-passing object on the third. -/
def oracleTwoBad : Nat → LLMResponse := fun i =>
  if i ≤ 2 then .badJSON else .payload (.obj [("bedrooms", .int 3)])

/-- A capability that always returns an empty object. -/
def oracleEmptyObj : JVal → Nat → LLMResponse := fun _ _ => .payload (.obj [])

/-- A one-suburb taxonomy for exercising the location resolution. -/
def suburbW : Suburb := ⟨some "Ponsonby", 301⟩

/-- The district owning `suburbW`. -/
def districtW : District := ⟨some "Auckland City", 201, [suburbW]⟩

/-- The region owning `districtW`. -/
def regionW : Region := ⟨some "Auckland", 101, [districtW]⟩

/-- The taxonomy consisting of `regionW` alone. -/
def regionsW : List Region := [regionW]

/-- A form naming only a suburb. -/
def formW : Form := { suburb := some "Ponsonby" }

/-- A two-entry property-type vocabulary; the second item has no `Key`
and falls back to its `Value`. -/
def ptypesW : List VocabItem := [⟨some "House", none⟩, ⟨none, some "Apartment"⟩]

/-- A form supplying two property types, one needing a case-insensitive
vocabulary match. -/
def formPT : Form := { property_types := some (.many ["house", "Apartment"]) }

/-- The values a categorical field actually supplies: none when the field
is falsy, else the single- or multi-value list. -/
def suppliedVals (o : Option StrOrList) : List String :=
  if solTruthy o then solVals (o.getD (.many [])) else []

/-! ## Record and default-filling lemmas -/

theorem getOrNull_setKey_self (rec : JRecord) (k : String) (v : JVal) :
    getOrNull (setKey rec k v) k = v := by
  induction rec with
  | nil => simp [setKey, getOrNull]
  | cons kv rest ih =>
    obtain ⟨k', w⟩ := kv
    by_cases h : k' = k
    · simp [setKey, h, getOrNull]
    · simp [setKey, h, getOrNull, ih]

theorem getOrNull_setKey_ne (rec : JRecord) {k' k : String} (v : JVal) (h : k' ≠ k) :
    getOrNull (setKey rec k' v) k = getOrNull rec k := by
  induction rec with
  | nil => simp [setKey, getOrNull, h]
  | cons kv rest ih =>
    obtain ⟨k₀, w⟩ := kv
    by_cases h0 : k₀ = k'
    · simp [setKey, h0, getOrNull, h]
    · simp only [setKey, h0, if_false, getOrNull]
      by_cases h1 : k₀ = k
      · simp [h1]
      · simp [h1, ih]

theorem hasKey_setKey_self (rec : JRecord) (k : String) (v : JVal) :
    hasKey (setKey rec k v) k = true := by
  induction rec with
  | nil => simp [setKey, hasKey]
  | cons kv rest ih =>
    obtain ⟨k', w⟩ := kv
    by_cases h : k' = k
    · simp [setKey, h, hasKey]
    · simp [setKey, h, hasKey, ih]

theorem hasKey_setKey_mono (rec : JRecord) {k : String} (k' : String) (v : JVal)
    (h : hasKey rec k = true) : hasKey (setKey rec k' v) k = true := by
  by_cases he : k' = k
  · subst he; exact hasKey_setKey_self rec k' v
  · induction rec with
    | nil => simp [hasKey] at h
    | cons kv rest ih =>
      obtain ⟨k₀, w⟩ := kv
      by_cases h0 : k₀ = k'
      · subst h0
        simp only [setKey, if_pos rfl, hasKey]
        simpa [hasKey, he] using h
      · simp only [setKey, h0, if_false, hasKey] at h ⊢
        by_cases h1 : k₀ = k
        · simp [h1]
        · simp only [h1, if_false] at h ⊢
          exact ih h

theorem hasKey_of_not_null (rec : JRecord) (k : String)
    (h : (getOrNull rec k).isNullB = false) : hasKey rec k = true := by
  induction rec with
  | nil => simp [getOrNull, JVal.isNullB] at h
  | cons kv rest ih =>
    obtain ⟨k₀, w⟩ := kv
    by_cases h0 : k₀ = k
    · simp [hasKey, h0]
    · simp only [getOrNull, h0, if_false] at h
      simp [hasKey, h0, ih h]

theorem applyOne_getOrNull_self (rec : JRecord) (k : String) (td : TypeDecl) :
    getOrNull (applyOne rec k td) k =
      (if (getOrNull rec k).isNullB && (typesOf td).contains (some "null") then
        getOrNull rec k
      else if (getOrNull rec k).isNullB
          || !((typesOf td).any fun t => matches_type (getOrNull rec k) t) then
        defaultFor (typesOf td)
      else getOrNull rec k) := by
  simp only [applyOne]
  split
  · rfl
  · split
    · exact getOrNull_setKey_self rec k _
    · rfl

theorem applyOne_getOrNull_ne (rec : JRecord) {k' k : String} (td : TypeDecl) (h : k' ≠ k) :
    getOrNull (applyOne rec k' td) k = getOrNull rec k := by
  simp only [applyOne]
  split
  · rfl
  · split
    · exact getOrNull_setKey_ne rec _ h
    · rfl

theorem applyOne_hasKey_mono (rec : JRecord) {k : String} (k' : String) (td : TypeDecl)
    (h : hasKey rec k = true) : hasKey (applyOne rec k' td) k = true := by
  simp only [applyOne]
  split
  · exact h
  · split
    · exact hasKey_setKey_mono rec k' _ h
    · exact h

theorem applyDefaults_getOrNull_notMem (props : SchemaProps) (rec : JRecord) {k : String}
    (h : k ∉ props.map Prod.fst) :
    getOrNull (applyDefaults props rec) k = getOrNull rec k := by
  induction props generalizing rec with
  | nil => rfl
  | cons kv rest ih =>
    simp only [List.map_cons, List.mem_cons, not_or] at h
    simp only [applyDefaults, List.foldl_cons]
    rw [show List.foldl (fun r kv => applyOne r kv.1 kv.2) (applyOne rec kv.1 kv.2) rest =
          applyDefaults rest (applyOne rec kv.1 kv.2) from rfl]
    rw [ih _ h.2, applyOne_getOrNull_ne rec kv.2 (fun he => h.1 he.symm)]

theorem applyDefaults_hasKey_mono (props : SchemaProps) (rec : JRecord) {k : String}
    (h : hasKey rec k = true) : hasKey (applyDefaults props rec) k = true := by
  induction props generalizing rec with
  | nil => exact h
  | cons kv rest ih =>
    simp only [applyDefaults, List.foldl_cons]
    exact ih _ (applyOne_hasKey_mono rec kv.1 kv.2 h)

theorem applyDefaults_append (l₁ l₂ : SchemaProps) (rec : JRecord) :
    applyDefaults (l₁ ++ l₂) rec = applyDefaults l₂ (applyDefaults l₁ rec) := by
  simp [applyDefaults, List.foldl_append]

/-- Claim C4: for every schema property, a value that is absent or whose
type is not in the allowed list (null acceptable only when listed) is
replaced by the canonical zero value of the first allowed type in the
fixed preference order array, object, string, integer/number, boolean,
else null; a boolean-typed field is never satisfied by an integer value;
and a raw record missing a required integer `bedrooms` field is
normalized to `bedrooms: 0` and passes schema validation. -/
theorem c4_schema_default_filling :
    (∀ (props : SchemaProps) (rec : JRecord) (k : String) (td : TypeDecl),
      (props.map Prod.fst).Nodup → (k, td) ∈ props →
      getOrNull (applyDefaults props rec) k =
        (if (getOrNull rec k).isNullB && (typesOf td).contains (some "null") then
          getOrNull rec k
        else if (getOrNull rec k).isNullB
            || !((typesOf td).any fun t => matches_type (getOrNull rec k) t) then
          defaultFor (typesOf td)
        else getOrNull rec k))
    ∧ (∀ n : Int, matches_type (.int n) (some "boolean") = false)
    ∧ applyDefaults [("bedrooms", .one "integer")] [] = [("bedrooms", .int 0)]
    ∧ validateMsg [("bedrooms", .one "integer")] ["bedrooms"]
        (applyDefaults [("bedrooms", .one "integer")] []) = none := by
  refine ⟨?_, ?_, rfl, rfl⟩
  · intro props rec k td hnd hmem
    obtain ⟨pre, post, rfl⟩ := List.append_of_mem hmem
    have hkeys : (pre.map Prod.fst ++ k :: post.map Prod.fst).Nodup := by
      simpa using hnd
    have hdisj := List.disjoint_of_nodup_append hkeys
    have hpre : k ∉ pre.map Prod.fst := fun hk => hdisj hk (List.mem_cons_self _ _)
    have hpost : k ∉ post.map Prod.fst :=
      (List.nodup_cons.mp (hkeys.of_append_right)).1
    rw [applyDefaults_append]
    rw [show applyDefaults ((k, td) :: post) (applyDefaults pre rec) =
          applyDefaults post (applyOne (applyDefaults pre rec) k td) from rfl]
    rw [applyDefaults_getOrNull_notMem post _ hpost, applyOne_getOrNull_self,
      applyDefaults_getOrNull_notMem pre rec hpre]
  · intro n; rfl

/-- Witness for C4: a string-typed property absent from the record is
filled with the empty string. -/
theorem c4_schema_default_filling_witness :
    getOrNull (applyDefaults [("a", TypeDecl.one "string")] []) "a" = .str "" :=
  (c4_schema_default_filling.1 [("a", TypeDecl.one "string")] [] "a" (.one "string")
    (by decide) (by simp)).trans (by rfl)

/-- Counterexample to C5 as stated: a property whose declared types
include `"null"` is skipped by the default-filling loop when the value is
absent, so it is still missing afterwards, and validation then fails for
that very reason when the schema marks it required. -/
theorem c5_counterexample :
    hasKey (applyDefaults [("x", TypeDecl.many ["null", "string"])] []) "x" = false
    ∧ validateMsg [("x", TypeDecl.many ["null", "string"])] ["x"]
        (applyDefaults [("x", TypeDecl.many ["null", "string"])] []) =
      some "x is a required property" := ⟨rfl, rfl⟩

/-- Claim C5 (amended): after default-filling, every schema property with
a declared type is present in the record, provided its allowed type list
does not include `"null"`; a nullable property whose value was absent may
remain absent, so validation can still fail on its absence. -/
theorem c5_defaults_presence (props : SchemaProps) (rec : JRecord) (k : String)
    (td : TypeDecl) (hmem : (k, td) ∈ props)
    (hnn : (typesOf td).contains (some "null") = false) :
    hasKey (applyDefaults props rec) k = true := by
  obtain ⟨pre, post, rfl⟩ := List.append_of_mem hmem
  rw [applyDefaults_append]
  rw [show applyDefaults ((k, td) :: post) (applyDefaults pre rec) =
        applyDefaults post (applyOne (applyDefaults pre rec) k td) from rfl]
  apply applyDefaults_hasKey_mono
  set mid := applyDefaults pre rec with hmid
  simp only [applyOne, hnn, Bool.and_false, if_neg (Bool.false_ne_true)]
  split
  · exact hasKey_setKey_self mid k _
  · rename_i hcond
    have hnb : (getOrNull mid k).isNullB = false := by
      cases hnull : (getOrNull mid k).isNullB
      · rfl
      · exact absurd (by simp [hnull]) hcond
    exact hasKey_of_not_null mid k hnb

/-- Witness for C5 (amended): an integer-typed property absent from the
record is present after default-filling. -/
theorem c5_defaults_presence_witness :
    hasKey (applyDefaults [("x", TypeDecl.one "integer")] []) "x" = true :=
  c5_defaults_presence [("x", TypeDecl.one "integer")] [] "x" (.one "integer")
    (by simp) (by decide)

/-! ## Fuzzy-matching theorems -/

/-- Counterexample to C1 as stated: the input text `" x "` is equal
case-insensitively to the second candidate's name `" x "`, yet because
the source strips whitespace from the text (but never from the
candidates) the exact tier misses and `fuzzy_match_item` returns the
first substring-tier candidate `"ax"`, whose name is not
case-insensitively equal to the text. -/
theorem c1_counterexample :
    (∃ it ∈ c1items, pyLower (it.Name.getD "") = pyLower " x ")
    ∧ fuzzy_match_item " x " c1items (fun it => it.Name) cmNone = some ⟨some "ax", 1⟩
    ∧ pyLower ((some "ax" : Option String).getD "") ≠ pyLower " x " :=
  ⟨⟨⟨some " x ", 2⟩, by decide, by decide⟩, by rfl, by decide⟩

/-- Claim C1 (amended): with the exact tier read as the source computes
it — candidate name lower-cased equals the lower-cased *and
whitespace-stripped* text — the tiers are strictly ordered: whenever some
candidate matches exactly the result is an exact-tier candidate,
whatever the ordering and whatever substring or approximate matches
exist; the substring tier decides only when no exact match exists; and
the approximate tier only when neither an exact nor a substring match
exists. -/
theorem c1_tier_precedence {α : Type} (name : String) (items : List α)
    (nameOf : α → Option String) (cm : CM) :
    ((∃ it ∈ items, pyLower ((nameOf it).getD "") = pyStrip (pyLower name)) →
      ∃ it', fuzzy_match_item name items nameOf cm = some it' ∧
        pyLower ((nameOf it').getD "") = pyStrip (pyLower name))
    ∧ ((∀ it ∈ items, pyLower ((nameOf it).getD "") ≠ pyStrip (pyLower name)) →
      (∃ it ∈ items, (strIn (pyStrip (pyLower name)) (pyLower ((nameOf it).getD "")) ||
          strIn (pyLower ((nameOf it).getD "")) (pyStrip (pyLower name))) = true) →
      ∃ it', fuzzy_match_item name items nameOf cm = some it' ∧
        (strIn (pyStrip (pyLower name)) (pyLower ((nameOf it').getD "")) ||
          strIn (pyLower ((nameOf it').getD "")) (pyStrip (pyLower name))) = true)
    ∧ ((∀ it ∈ items, pyLower ((nameOf it).getD "") ≠ pyStrip (pyLower name) ∧
          (strIn (pyStrip (pyLower name)) (pyLower ((nameOf it).getD "")) ||
            strIn (pyLower ((nameOf it).getD "")) (pyStrip (pyLower name))) = false) →
      fuzzy_match_item name items nameOf cm =
        tierClose (pyStrip (pyLower name)) items nameOf cm) := by
  refine ⟨?_, ?_, ?_⟩
  · rintro ⟨it, hmem, hp⟩
    have hsome : (tierExact (pyStrip (pyLower name)) items nameOf).isSome :=
      List.find?_isSome.mpr ⟨it, hmem, beq_iff_eq.mpr hp⟩
    obtain ⟨it', hfind⟩ := Option.isSome_iff_exists.mp hsome
    have hfind' : items.find?
        (fun it => pyLower ((nameOf it).getD "") == pyStrip (pyLower name)) = some it' := hfind
    have hp' := List.find?_some hfind'
    simp only [beq_iff_eq] at hp'
    refine ⟨it', ?_, hp'⟩
    simp only [fuzzy_match_item]
    rw [hfind]
  · intro hne hsub
    have hnone : tierExact (pyStrip (pyLower name)) items nameOf = none :=
      List.find?_eq_none.mpr (fun it hmem hbeq => hne it hmem (beq_iff_eq.mp hbeq))
    obtain ⟨it, hmem, hp⟩ := hsub
    have hsome : (tierSub (pyStrip (pyLower name)) items nameOf).isSome :=
      List.find?_isSome.mpr ⟨it, hmem, hp⟩
    obtain ⟨it', hfind⟩ := Option.isSome_iff_exists.mp hsome
    have hfind' : items.find? (fun it =>
        strIn (pyStrip (pyLower name)) (pyLower ((nameOf it).getD "")) ||
          strIn (pyLower ((nameOf it).getD "")) (pyStrip (pyLower name))) = some it' := hfind
    have hp' := List.find?_some hfind'
    refine ⟨it', ?_, hp'⟩
    simp only [fuzzy_match_item]
    rw [hnone, hfind]
  · intro hboth
    have hnone1 : tierExact (pyStrip (pyLower name)) items nameOf = none :=
      List.find?_eq_none.mpr
        (fun it hmem hbeq => (hboth it hmem).1 (beq_iff_eq.mp hbeq))
    have hnone2 : tierSub (pyStrip (pyLower name)) items nameOf = none :=
      List.find?_eq_none.mpr
        (fun it hmem hp => by
          have := (hboth it hmem).2
          simp only [this] at hp
          exact absurd hp (by simp))
    simp only [fuzzy_match_item]
    rw [hnone1, hnone2]

/-- Witness for C1 (amended): an exactly matching candidate (modulo
casing) is returned even though a substring-tier candidate precedes it
in the list. -/
theorem c1_tier_precedence_witness :
    ∃ it', fuzzy_match_item "AX" c1items (fun it => it.Name) cmNone = some it' ∧
      pyLower ((it'.Name).getD "") = pyStrip (pyLower "AX") :=
  (c1_tier_precedence "AX" c1items (fun it => it.Name) cmNone).1
    ⟨⟨some "ax", 1⟩, by decide, by decide⟩

/-! ## Query-builder location theorems -/

theorem exists_of_findSome?_eq_some {α β : Type} {f : α → Option β} {l : List α} {b : β}
    (h : l.findSome? f = some b) : ∃ a ∈ l, f a = some b := by
  rw [List.findSome?_eq_some_iff] at h
  obtain ⟨l1, a, l2, rfl, hfa, _⟩ := h
  exact ⟨a, by simp, hfa⟩

theorem fuzzy_match_item_mem {α : Type} {name : String} {items : List α}
    {nameOf : α → Option String} {cm : CM} {it : α}
    (h : fuzzy_match_item name items nameOf cm = some it) : it ∈ items := by
  simp only [fuzzy_match_item] at h
  cases he : tierExact (pyStrip (pyLower name)) items nameOf with
  | some a =>
    simp only [he, Option.some.injEq] at h
    subst h
    have he' : items.find?
        (fun x => pyLower ((nameOf x).getD "") == pyStrip (pyLower name)) = some a := he
    exact List.mem_of_find?_eq_some he'
  | none =>
    simp only [he] at h
    cases hs : tierSub (pyStrip (pyLower name)) items nameOf with
    | some a =>
      simp only [hs, Option.some.injEq] at h
      subst h
      have hs' : items.find? (fun x =>
          strIn (pyStrip (pyLower name)) (pyLower ((nameOf x).getD "")) ||
            strIn (pyLower ((nameOf x).getD "")) (pyStrip (pyLower name))) = some a := hs
      exact List.mem_of_find?_eq_some hs'
    | none =>
      simp only [hs, tierClose] at h
      cases hc : cm (pyStrip (pyLower name)) (items.filterMap nameOf) with
      | none => simp [hc] at h
      | some c0 =>
        simp only [hc] at h
        exact List.mem_of_find?_eq_some h

theorem locStep1_chain {fd : String} {regions : List Region} {cm : CM}
    {r : Region} {d : District} (h : locStep1 fd regions cm = some (r, d)) :
    r ∈ regions ∧ d ∈ r.Districts := by
  obtain ⟨r0, hr0, hmap⟩ := exists_of_findSome?_eq_some h
  cases hf : fuzzy_match_item fd r0.Districts (fun d => d.Name) cm with
  | none => simp [hf] at hmap
  | some d0 =>
    simp only [hf, Option.map_some', Option.some.injEq, Prod.mk.injEq] at hmap
    obtain ⟨rfl, rfl⟩ := hmap
    exact ⟨hr0, fuzzy_match_item_mem hf⟩

theorem locStep3_chain {fs : String} {regions : List Region} {cm : CM}
    {r : Region} {d : District} {s : Suburb}
    (h : locStep3 fs regions cm = some (r, d, s)) :
    r ∈ regions ∧ d ∈ r.Districts ∧ s ∈ d.Suburbs := by
  obtain ⟨r0, hr0, hinner⟩ := exists_of_findSome?_eq_some h
  obtain ⟨d0, hd0, hmap⟩ := exists_of_findSome?_eq_some hinner
  cases hf : fuzzy_match_item fs d0.Suburbs (fun s => s.Name) cm with
  | none => simp [hf] at hmap
  | some s0 =>
    simp only [hf, Option.map_some', Option.some.injEq, Prod.mk.injEq] at hmap
    obtain ⟨rfl, rfl, rfl⟩ := hmap
    exact ⟨hr0, hd0, fuzzy_match_item_mem hf⟩

theorem locGlobalSuburb_chain {fs : Option String} {sopt : Option Suburb}
    {regions : List Region} {cm : CM} {r : Region} {d : District} {s : Suburb}
    (h : locGlobalSuburb fs sopt regions cm = some (r, d, s)) :
    r ∈ regions ∧ d ∈ r.Districts ∧ s ∈ d.Suburbs := by
  unfold locGlobalSuburb at h
  cases fs with
  | none => simp at h
  | some fs' =>
    cases sopt with
    | some s1 => simp at h
    | none =>
      by_cases he : fs' = ""
      · simp [he] at h
      · simp only [he, if_false] at h
        exact locStep3_chain h

theorem locSuburbInDistrict_some {fs : Option String} {dopt : Option District} {cm : CM}
    {s : Suburb} (h : locSuburbInDistrict fs dopt cm = some s) :
    ∃ d, dopt = some d ∧ s ∈ d.Suburbs := by
  unfold locSuburbInDistrict at h
  cases fs with
  | none => simp at h
  | some fs' =>
    cases dopt with
    | none => simp at h
    | some d =>
      by_cases he : fs' = ""
      · simp [he] at h
      · simp only [he, if_false] at h
        exact ⟨d, rfl, fuzzy_match_item_mem h⟩

theorem locDistrictStep_chain {fd : Option String} {regions : List Region} {cm : CM}
    {r : Region} {d : District} (h : locDistrictStep fd regions cm = some (r, d)) :
    r ∈ regions ∧ d ∈ r.Districts := by
  unfold locDistrictStep at h
  cases fd with
  | none => simp at h
  | some fd' =>
    by_cases he : fd' = ""
    · simp [he] at h
    · simp only [he, if_false] at h
      exact locStep1_chain h

theorem locResolve_suburb_chain (fr fd fs : Option String) (regions : List Region)
    (cm : CM) {s0 : Suburb} (h : (locResolve fr fd fs regions cm).2.2 = some s0) :
    ∃ r0 d0, r0 ∈ regions ∧ d0 ∈ r0.Districts ∧ s0 ∈ d0.Suburbs ∧
      (locResolve fr fd fs regions cm).2.1 = some d0 ∧
      (locResolve fr fd fs regions cm).1 = some r0 := by
  simp only [locResolve] at h ⊢
  cases hg : locGlobalSuburb fs (locSuburbInDistrict fs
      ((locDistrictStep fd regions cm).map (fun p => p.2)) cm) regions cm with
  | some t =>
    obtain ⟨r0, d0, s1⟩ := t
    simp only [hg, Option.some.injEq] at h
    subst h
    obtain ⟨hr0, hd0, hs0⟩ := locGlobalSuburb_chain hg
    refine ⟨r0, d0, hr0, hd0, hs0, ?_, ?_⟩ <;>
      simp [hg, locBackfillDistrict, locBackfillRegion, locRegionIfMissing]
  | none =>
    simp only [hg] at h
    obtain ⟨d1, hd1, hs0⟩ := locSuburbInDistrict_some h
    cases hrd : locDistrictStep fd regions cm with
    | none => rw [hrd] at hd1; simp at hd1
    | some p =>
      obtain ⟨r1, d1'⟩ := p
      rw [hrd] at hd1
      simp only [Option.map_some', Option.some.injEq] at hd1
      subst hd1
      obtain ⟨hr1, hd1m⟩ := locDistrictStep_chain hrd
      refine ⟨r1, d1', hr1, hd1m, hs0, ?_, ?_⟩ <;>
        simp [hg, hrd, h, locBackfillDistrict, locBackfillRegion, locRegionIfMissing]

/-- For a successful build, the returned hints are exactly those computed
from the location resolution. -/
theorem build_hints_eq (form : Form) (regions : List Region)
    (ptypes smethods : List VocabItem) (cm : CM) (params : Params) (hints : MatchHints)
    (h : build_params_from_form form regions ptypes smethods cm = .ok (params, hints)) :
    hints = hintsOf form.region form.district form.suburb
      (locResolve form.region form.district form.suburb regions cm).1
      (locResolve form.region form.district form.suburb regions cm).2.1
      (locResolve form.region form.district form.suburb regions cm).2.2 := by
  unfold build_params_from_form at h
  repeat' split at h
  all_goals
    first
      | exact Except.noConfusion h
      | exact (congrArg Prod.snd (Except.ok.inj h)).symm

/-- Claim C8: whenever the build succeeds and its suburb hint is
resolved, the district and region hints carry the resolved suburb's true
ancestors — under the taxonomy invariant that the suburb id determines
its ancestor chain, they equal the ids of the district and region owning
that suburb. -/
theorem c8_backpropagation (form : Form) (regions : List Region)
    (ptypes smethods : List VocabItem) (cm : CM) (params : Params) (hints : MatchHints)
    (sid : Int) (r : Region) (d : District) (s : Suburb)
    (hb : build_params_from_form form regions ptypes smethods cm = .ok (params, hints))
    (hs : hints.suburb.id = some sid)
    (hr : r ∈ regions) (hd : d ∈ r.Districts) (hsub : s ∈ d.Suburbs)
    (hsid : s.SuburbId = sid)
    (huniq : ∀ r' ∈ regions, ∀ d' ∈ r'.Districts, ∀ s' ∈ d'.Suburbs, s'.SuburbId = sid →
      r'.LocalityId = r.LocalityId ∧ d'.DistrictId = d.DistrictId) :
    hints.district.id = some d.DistrictId ∧ hints.region.id = some r.LocalityId := by
  have hhints := build_hints_eq form regions ptypes smethods cm params hints hb
  subst hhints
  simp only [hintsOf] at hs ⊢
  obtain ⟨s0, hs0, hsid0⟩ := Option.map_eq_some'.mp hs
  obtain ⟨r0, d0, hr0, hd0, hs0mem, hdob, hro⟩ :=
    locResolve_suburb_chain form.region form.district form.suburb regions cm hs0
  obtain ⟨hrid, hdid⟩ := huniq r0 hr0 d0 hd0 s0 hs0mem hsid0
  rw [hdob, hro]
  simp [hrid, hdid]

/-- Witness for C8: resolving the suburb `"Ponsonby"` in the one-branch
taxonomy yields hints carrying its owning district and region ids. -/
theorem c8_backpropagation_witness :
    (⟨⟨none, some "Auckland", some 101⟩, ⟨none, some "Auckland City", some 201⟩,
        ⟨some "Ponsonby", some "Ponsonby", some 301⟩⟩ : MatchHints).district.id =
      some districtW.DistrictId ∧
    (⟨⟨none, some "Auckland", some 101⟩, ⟨none, some "Auckland City", some 201⟩,
        ⟨some "Ponsonby", some "Ponsonby", some 301⟩⟩ : MatchHints).region.id =
      some regionW.LocalityId :=
  c8_backpropagation formW regionsW [] [] cmNone [("suburb", .int 301)] _ 301
    regionW districtW suburbW rfl rfl (by decide) (by decide) (by decide) rfl (by decide)

/-! ## Fetch-executor theorems -/

theorem searchRetryGo_failure_spins (fuel : Nat) :
    ∀ attempt : Nat, searchRetryGo (fun _ => .failure) fuel attempt 0 [] = ([], none) := by
  induction fuel with
  | zero => intro attempt; rfl
  | succ fuel ih =>
    intro attempt
    simp only [searchRetryGo]
    exact ih (attempt + 1)

/-- Claim C2: the source's generic-exception branch of the per-page retry
loop (`# else, retry`) neither waits two seconds nor increments the retry
counter, so a request that keeps raising a non-429/5xx exception loops
forever with no recorded backoff and no `FetchError` — under any fuel
bound the loop is still running with zero waits recorded — whereas the
429 path does exhaust its budget of 3 and raise `FetchError` after three
60-second waits. -/
theorem c2_exception_retry_unbounded :
    (∀ fuel : Nat, searchRetry (fun _ => .failure) fuel = ([], none))
    ∧ searchRetry (fun _ => .rate) 10 = ([60, 60, 60], some (.error "FetchError")) :=
  ⟨fun fuel => searchRetryGo_failure_spins fuel 1, rfl⟩

/-- Claim C10: the per-page id-collection loop keeps exactly the truthy
`ListingId` values, in order — items whose id is absent, null or zero are
dropped from the collected list (hence from the detail phase) while still
counting toward the page's item count used by the pagination decisions:
`serverMix`'s four items yield ids `[5, 7]`, and `serverDrop`'s pages of
two always-dropped items keep the pagination advancing to page 5 instead
of stopping with an empty first page. -/
theorem c10_listing_id_collection :
    (∀ items : List SearchItem,
      pageListingIds items =
        (items.filter (fun it => !(it.ListingId.getD 0 == 0))).map
          (fun it => it.ListingId.getD 0))
    ∧ fetch_search_ids serverMix none none 10 = some ([5, 7], 1)
    ∧ fetch_search_ids serverDrop none none 10 = some ([], 5) := by
  refine ⟨?_, rfl, rfl⟩
  intro items
  induction items with
  | nil => rfl
  | cons it rest ih =>
    obtain ⟨lid⟩ := it
    cases lid with
    | none => simpa [pageListingIds, List.filter] using ih
    | some n =>
      by_cases h : n = 0
      · subst h; simpa [pageListingIds, List.filter] using ih
      · simp [pageListingIds, h, List.filter_cons, ih]

theorem fetchGo_pages_le (server : Nat → PageData) (mr : Option Nat) (m : Nat)
    (hm0 : m ≠ 0) :
    ∀ fuel page acc ids p, page ≤ m →
      fetchGo server (some m) mr fuel page acc = some (ids, p) → p ≤ m := by
  intro fuel
  induction fuel with
  | zero => intro page acc ids p hp h; simp [fetchGo] at h
  | succ fuel ih =>
    intro page acc ids p hp h
    simp only [fetchGo] at h
    split_ifs at h with h1 h2 h3 h4
    · obtain ⟨h5, h6⟩ := Option.some.injEq .. ▸ Prod.mk.injEq .. ▸ Option.some.inj h
      omega
    · obtain ⟨h5, h6⟩ := Option.some.injEq .. ▸ Prod.mk.injEq .. ▸ Option.some.inj h
      omega
    · obtain ⟨h5, h6⟩ := Option.some.injEq .. ▸ Prod.mk.injEq .. ▸ Option.some.inj h
      omega
    · obtain ⟨h5, h6⟩ := Option.some.injEq .. ▸ Prod.mk.injEq .. ▸ Option.some.inj h
      omega
    · have hlt : page < m := by
        by_contra hge
        push_neg at hge
        exact h2 ⟨by simp [natTruthy, hm0], by simpa using hge⟩
      exact ih (page + 1) _ ids p (by omega) h

/-- Claim C3: after each successful page the loop stops exactly when one
of the four conditions holds, checked in source order — zero items,
`max_pages` reached, `max_records` collected, `page * PageSize ≥
TotalCount` — and advances otherwise; with a truthy `max_pages = m` at
most `m` pages are fetched no matter what total the server reports; with
a truthy `max_records = m` the ids kept are truncated to at most `m`; and
in the page-size-20, `TotalCount = 45` scenario the fetch stops after
page 3 with 45 aggregated ids. -/
theorem c3_pagination_termination :
    (∀ (server : Nat → PageData) (mp mr : Option Nat) (fuel page : Nat) (acc : List Int),
      ((server page).items.length = 0
        ∨ (natTruthy mp ∧ page ≥ mp.getD 0)
        ∨ (natTruthy mr ∧ (acc ++ pageListingIds (server page).items).length ≥ mr.getD 0)
        ∨ ((page : Int) * (server page).PageSize ≥ (server page).TotalCount)) →
      fetchGo server mp mr (fuel + 1) page acc =
        some (acc ++ pageListingIds (server page).items, page))
    ∧ (∀ (server : Nat → PageData) (mp mr : Option Nat) (fuel page : Nat) (acc : List Int),
      ¬((server page).items.length = 0) →
      ¬(natTruthy mp ∧ page ≥ mp.getD 0) →
      ¬(natTruthy mr ∧ (acc ++ pageListingIds (server page).items).length ≥ mr.getD 0) →
      ¬((page : Int) * (server page).PageSize ≥ (server page).TotalCount) →
      fetchGo server mp mr (fuel + 1) page acc =
        fetchGo server mp mr fuel (page + 1) (acc ++ pageListingIds (server page).items))
    ∧ (∀ (server : Nat → PageData) (mr : Option Nat) (fuel m : Nat) (ids : List Int)
        (p : Nat), m ≠ 0 →
      fetch_search_ids server (some m) mr fuel = some (ids, p) → p ≤ m)
    ∧ (∀ (server : Nat → PageData) (mp : Option Nat) (fuel m : Nat) (ids : List Int)
        (p : Nat), m ≠ 0 →
      fetch_search_ids server mp (some m) fuel = some (ids, p) → ids.length ≤ m)
    ∧ (fetch_search_ids server45 none none 10).map (fun r => (r.1.length, r.2)) =
        some (45, 3) := by
  refine ⟨?_, ?_, ?_, ?_, by rfl⟩
  · intro server mp mr fuel page acc h
    simp only [fetchGo]
    split_ifs with h1 h2 h3 h4
    · rfl
    · rfl
    · rfl
    · rfl
    · rcases h with h | h | h | h <;> contradiction
  · intro server mp mr fuel page acc h1 h2 h3 h4
    simp only [fetchGo]
    rw [if_neg h1, if_neg h2, if_neg h3, if_neg h4]
  · intro server mr fuel m ids p hm0 h
    unfold fetch_search_ids at h
    cases hfg : fetchGo server (some m) mr fuel 1 [] with
    | none => rw [hfg] at h; exact absurd h (by simp)
    | some r =>
      obtain ⟨ids0, pg⟩ := r
      rw [hfg] at h
      have hp : p = pg := by
        simpa using congrArg (fun o => o.map Prod.snd) h.symm
      subst hp
      exact fetchGo_pages_le server mr m hm0 fuel 1 [] ids0 p (by omega) hfg
  · intro server mp fuel m ids p hm0 h
    unfold fetch_search_ids at h
    cases hfg : fetchGo server mp (some m) fuel 1 [] with
    | none => rw [hfg] at h; exact absurd h (by simp)
    | some r =>
      obtain ⟨ids0, pg⟩ := r
      rw [hfg] at h
      simp only [Option.some.injEq, Prod.mk.injEq] at h
      obtain ⟨hids, -⟩ := h
      subst hids
      split
      · rw [List.length_take]
        simp only [Option.getD_some]
        omega
      · rename_i hng
        have hb : ¬ ids0.length > m := fun hgt =>
          hng ⟨by simp [natTruthy, hm0], by simpa using hgt⟩
        omega

/-- Witness for C3: with `max_pages = 2` against a server reporting 100
results, exactly two pages are fetched. -/
theorem c3_pagination_termination_witness :
    fetch_search_ids serverOnes (some 2) none 10 = some ([1, 1], 2) ∧ (2 : Nat) ≤ 2 :=
  ⟨rfl, c3_pagination_termination.2.2.1 serverOnes none 10 2 [1, 1] 2 (by decide) rfl⟩

/-! ## Normalizer batch and retry theorems -/

/-- Claim C9: `normalize` wraps a single (non-list) record into a
one-element batch, so normalizing a dict `d` gives exactly the result of
normalizing `[d]`. -/
theorem c9_normalize_wraps_single (props : SchemaProps) (required : List String)
    (limit : Nat) (oracle : JVal → Nat → LLMResponse) (fields : List (String × JVal)) :
    normalize props required limit oracle (.obj fields) =
      normalize props required limit oracle (.arr [.obj fields]) := rfl

theorem normOneGo_congr (props : SchemaProps) (required : List String) (limit : Nat)
    (o o' : Nat → LLMResponse) (hoo : ∀ i, 1 ≤ i → i ≤ limit → o i = o' i) :
    ∀ rem attempt : Nat, 1 ≤ attempt → attempt + rem ≤ limit + 1 →
      normOneGo props required limit o rem attempt =
        normOneGo props required limit o' rem attempt := by
  intro rem
  induction rem with
  | zero => intro attempt _ _; rfl
  | succ rem ih =>
    intro attempt h1 h2
    have heq := hoo attempt h1 (by omega)
    have hrec := ih (attempt + 1) (by omega) (by omega)
    cases hresp : o attempt with
    | noCall =>
      have h' : o' attempt = .noCall := heq.symm.trans hresp
      simp only [normOneGo, hresp, h']
      exact hrec
    | badJSON =>
      have h' : o' attempt = .badJSON := heq.symm.trans hresp
      simp only [normOneGo, hresp, h']
      exact hrec
    | payload v =>
      have h' : o' attempt = .payload v := heq.symm.trans hresp
      simp only [normOneGo, hresp, h']
      split
      · split
        · rfl
        · by_cases hlt : attempt < limit
          · simp only [if_pos hlt]
            exact hrec
          · simp only [if_neg hlt]
      · exact hrec

/-- Claim C6: normalizing one record consults the capability on at most
`retry_limit` attempts (responses beyond that bound cannot change the
result); with `retry_limit = 2` and invalid JSON on the first two calls
the record fails with the generic retry-limit error even though the third
call would have produced a schema-valid object (which `retry_limit = 3`
indeed accepts); and when the final attempt fails validation the raised
error names the last validation message. -/
theorem c6_retry_budget :
    (∀ (props : SchemaProps) (required : List String) (limit : Nat)
        (o o' : JVal → Nat → LLMResponse) (raw : JVal),
      (∀ i, 1 ≤ i → i ≤ limit → o raw i = o' raw i) →
      normalize_one props required limit o raw = normalize_one props required limit o' raw)
    ∧ normOneGo [("bedrooms", .one "integer")] ["bedrooms"] 2 oracleTwoBad 2 1 =
        .error "Exceeded retry limit normalizing record."
    ∧ normOneGo [("bedrooms", .one "integer")] ["bedrooms"] 3 oracleTwoBad 3 1 =
        .ok [("bedrooms", .int 3)]
    ∧ normalize_one [("bedrooms", .one "integer")] ["bedrooms", "extra"] 2 oracleEmptyObj
        (.obj []) =
        .error "Failed to validate record after 2 attempts: extra is a required property" := by
  refine ⟨?_, rfl, rfl, rfl⟩
  intro props required limit o o' raw h
  exact normOneGo_congr props required limit (o raw) (o' raw) h limit 1 (by omega) (by omega)

/-- Witness for C6: a capability returning invalid JSON on the two
in-budget attempts gives the same outcome as one that additionally would
have answered correctly on a (never reached) third attempt. -/
theorem c6_retry_budget_witness :
    normalize_one [("bedrooms", TypeDecl.one "integer")] ["bedrooms"] 2
        (fun _ _ => .badJSON) (.obj []) =
      normalize_one [("bedrooms", TypeDecl.one "integer")] ["bedrooms"] 2
        (fun _ i => if i ≤ 2 then .badJSON else .payload (.obj [("bedrooms", .int 3)]))
        (.obj []) :=
  c6_retry_budget.1 _ _ 2 _ _ (.obj []) (fun i _ h2 => by simp [h2])

/-! ## Vocabulary-matching lemmas and C7 -/

theorem selectOne_none_iff (v : String) (choices : List String) :
    (if choices.contains v then some v
      else choices.find? (fun k => pyLower k == pyLower v)) = none ↔
    ∀ k ∈ choices, pyLower k ≠ pyLower v := by
  by_cases hc : choices.contains v = true
  · rw [if_pos hc]
    constructor
    · intro h; exact absurd h (by simp)
    · intro h; exact absurd rfl (h v (by simpa using hc))
  · rw [if_neg hc, List.find?_eq_none]
    simp [beq_iff_eq]

theorem selectOne_some {v k : String} {choices : List String}
    (h : (if choices.contains v then some v
      else choices.find? (fun k => pyLower k == pyLower v)) = some k) :
    k ∈ choices ∧ pyLower k = pyLower v := by
  by_cases hc : choices.contains v = true
  · rw [if_pos hc] at h
    obtain rfl : v = k := by simpa using h
    exact ⟨by simpa using hc, rfl⟩
  · rw [if_neg hc] at h
    have hp := List.find?_some h
    simp only [beq_iff_eq] at hp
    exact ⟨List.mem_of_find?_eq_some h, hp⟩

theorem selectValues_ok_forall2 (label : String) (vals : List String) :
    ∀ (sel choices : List String), selectValues label vals choices = .ok sel →
      List.Forall₂ (fun v k => k ∈ choices ∧ pyLower k = pyLower v) vals sel := by
  induction vals with
  | nil =>
    intro sel choices h
    obtain rfl : ([] : List String) = sel := by simpa [selectValues] using h
    exact List.Forall₂.nil
  | cons v rest ih =>
    intro sel choices h
    simp only [selectValues] at h
    cases hm : (if choices.contains v then some v
        else choices.find? (fun k => pyLower k == pyLower v)) with
    | none => simp only [hm] at h; exact absurd h (by simp)
    | some k =>
      simp only [hm] at h
      cases hrec : selectValues label rest choices with
      | error e => simp only [hrec] at h; exact absurd h (by simp)
      | ok ks =>
        simp only [hrec] at h
        obtain rfl : k :: ks = sel := by simpa using h
        exact List.Forall₂.cons (selectOne_some hm) (ih ks choices hrec)

theorem selectValues_error_iff (label : String) (vals : List String)
    (choices : List String) :
    (∃ e, selectValues label vals choices = .error e) ↔
      ∃ v ∈ vals, ∀ k ∈ choices, pyLower k ≠ pyLower v := by
  induction vals with
  | nil => simp [selectValues]
  | cons v rest ih =>
    simp only [selectValues]
    cases hm : (if choices.contains v then some v
        else choices.find? (fun k => pyLower k == pyLower v)) with
    | none =>
      simp only [hm]
      constructor
      · intro _
        exact ⟨v, by simp, (selectOne_none_iff v choices).mp hm⟩
      · intro _
        exact ⟨label ++ v, rfl⟩
    | some k =>
      simp only [hm]
      cases hrec : selectValues label rest choices with
      | ok ks =>
        simp only [hrec]
        constructor
        · rintro ⟨e, he⟩
          exact absurd he (by simp)
        · rintro ⟨v', hv', hnm⟩
          rcases List.mem_cons.mp hv' with rfl | hv'r
          · exact absurd (((selectOne_none_iff v' choices).mpr hnm).symm.trans hm)
              (by simp)
          · obtain ⟨e, he⟩ := ih.mpr ⟨v', hv'r, hnm⟩
            rw [hrec] at he
            exact absurd he (by simp)
      | error e =>
        simp only [hrec]
        constructor
        · intro _
          obtain ⟨v', hv', hnm⟩ := ih.mp ⟨e, hrec⟩
          exact ⟨v', by simp [hv'], hnm⟩
        · intro _
          exact ⟨e, rfl⟩

theorem getParam_append (ps qs : Params) (key : String)
    (h : getParam ps key = none) : getParam (ps ++ qs) key = getParam qs key := by
  induction ps with
  | nil => rfl
  | cons kv rest ih =>
    obtain ⟨k, v⟩ := kv
    by_cases hk : k = key
    · simp [getParam, hk] at h
    · simp only [getParam, hk, if_false] at h
      simp only [List.cons_append, getParam, hk, if_false]
      exact ih h

theorem getParam_none_of_forall (ps : Params) (key : String)
    (h : ∀ p ∈ ps, p.1 ≠ key) : getParam ps key = none := by
  induction ps with
  | nil => rfl
  | cons kv rest ih =>
    obtain ⟨k, v⟩ := kv
    have hk : k ≠ key := h (k, v) (by simp)
    simp only [getParam, hk, if_false]
    exact ih (fun p hp => h p (by simp [hp]))

theorem getParam_baseParams_none (form : Form)
    (rds : Option Region × Option District × Option Suburb) (key : String)
    (hks : key = "property_type" ∨ key = "sales_method") :
    getParam (baseParams form rds) key = none := by
  have h0 : getParam (locationParams rds) key = none := by
    apply getParam_none_of_forall
    intro p hp
    unfold locationParams at hp
    rcases hks with rfl | rfl <;> (split at hp <;> simp_all)
  rw [baseParams, getParam_append _ _ _ h0]
  apply getParam_none_of_forall
  intro q hq
  simp only [numericParams, List.mem_filterMap] at hq
  obtain ⟨p, hp, hmap⟩ := hq
  obtain ⟨n, hn, rfl⟩ := Option.map_eq_some'.mp hmap
  simp only [numericPairs, List.mem_cons, List.not_mem_nil, or_false] at hp
  rcases hks with rfl | rfl <;>
    (rcases hp with h | h | h | h | h | h | h | h <;> (subst h; simp))

/-- Claim C7: `build_params_from_form` fails (the source's `ValueError`)
exactly when some supplied property-type or sales-method value matches no
vocabulary key case-insensitively; on success every supplied value's
matched vocabulary key appears, comma-joined, in the corresponding
parameter — never silently dropped. -/
theorem c7_unmappable_value (form : Form) (regions : List Region)
    (ptypes smethods : List VocabItem) (cm : CM) :
    ((∃ e, build_params_from_form form regions ptypes smethods cm = .error e) ↔
      (∃ v ∈ suppliedVals form.property_types,
          ∀ k ∈ ptypes.map keyOf, pyLower k ≠ pyLower v)
      ∨ (∃ v ∈ suppliedVals form.sales_methods,
          ∀ k ∈ smethods.map keyOf, pyLower k ≠ pyLower v))
    ∧ (∀ (params : Params) (hints : MatchHints),
        build_params_from_form form regions ptypes smethods cm = .ok (params, hints) →
        (solTruthy form.property_types = true →
          ∃ sel, getParam params "property_type" =
              some (.str (String.intercalate "," sel)) ∧
            List.Forall₂ (fun v k => k ∈ ptypes.map keyOf ∧ pyLower k = pyLower v)
              (solVals (form.property_types.getD (.many []))) sel)
        ∧ (solTruthy form.sales_methods = true →
          ∃ sel, getParam params "sales_method" =
              some (.str (String.intercalate "," sel)) ∧
            List.Forall₂ (fun v k => k ∈ smethods.map keyOf ∧ pyLower k = pyLower v)
              (solVals (form.sales_methods.getD (.many []))) sel)) := by
  by_cases hpt : solTruthy form.property_types = true
  · cases hsel : selectValues "Unknown property_type: "
        (solVals (form.property_types.getD (.many []))) (ptypes.map keyOf) with
    | error e =>
      have hb : build_params_from_form form regions ptypes smethods cm = .error e := by
        unfold build_params_from_form
        simp only [hpt, if_true, hsel]
      refine ⟨⟨fun _ => ?_, fun _ => ⟨e, hb⟩⟩, ?_⟩
      · left
        obtain ⟨v, hv, hnm⟩ := (selectValues_error_iff _ _ _).mp ⟨e, hsel⟩
        exact ⟨v, by simpa [suppliedVals, hpt] using hv, hnm⟩
      · intro params hints h
        rw [hb] at h
        exact absurd h (by simp)
    | ok sel =>
      by_cases hsm : solTruthy form.sales_methods = true
      · cases hsel2 : selectValues "Unknown sales_method: "
            (solVals (form.sales_methods.getD (.many []))) (smethods.map keyOf) with
        | error e2 =>
          have hb : build_params_from_form form regions ptypes smethods cm =
              .error e2 := by
            unfold build_params_from_form
            simp only [hpt, if_true, hsel, hsm, hsel2]
          refine ⟨⟨fun _ => ?_, fun _ => ⟨e2, hb⟩⟩, ?_⟩
          · right
            obtain ⟨v, hv, hnm⟩ := (selectValues_error_iff _ _ _).mp ⟨e2, hsel2⟩
            exact ⟨v, by simpa [suppliedVals, hsm] using hv, hnm⟩
          · intro params hints h
            rw [hb] at h
            exact absurd h (by simp)
        | ok sel2 =>
          have hb : build_params_from_form form regions ptypes smethods cm =
              .ok ((baseParams form (locResolve form.region form.district form.suburb
                    regions cm) ++
                  [("property_type", .str (String.intercalate "," sel))]) ++
                  [("sales_method", .str (String.intercalate "," sel2))],
                hintsOf form.region form.district form.suburb
                  (locResolve form.region form.district form.suburb regions cm).1
                  (locResolve form.region form.district form.suburb regions cm).2.1
                  (locResolve form.region form.district form.suburb regions cm).2.2) := by
            unfold build_params_from_form
            simp only [hpt, if_true, hsel, hsm, hsel2]
          refine ⟨⟨fun h' => ?_, fun hrhs => ?_⟩, ?_⟩
          · obtain ⟨e', he'⟩ := h'
            rw [hb] at he'
            exact absurd he' (by simp)
          · exfalso
            rcases hrhs with ⟨v, hv, hnm⟩ | ⟨v, hv, hnm⟩
            · obtain ⟨e', he'⟩ := (selectValues_error_iff _ _ _).mpr
                ⟨v, by simpa [suppliedVals, hpt] using hv, hnm⟩
              rw [hsel] at he'
              exact absurd he' (by simp)
            · obtain ⟨e', he'⟩ := (selectValues_error_iff _ _ _).mpr
                ⟨v, by simpa [suppliedVals, hsm] using hv, hnm⟩
              rw [hsel2] at he'
              exact absurd he' (by simp)
          · intro params hints h
            rw [hb] at h
            simp only [Except.ok.injEq, Prod.mk.injEq] at h
            obtain ⟨hparams, -⟩ := h
            subst hparams
            constructor
            · intro _
              refine ⟨sel, ?_, selectValues_ok_forall2 _ _ sel _ hsel⟩
              rw [List.append_assoc, getParam_append _ _ _
                (getParam_baseParams_none form _ _ (Or.inl rfl))]
              simp [getParam]
            · intro _
              refine ⟨sel2, ?_, selectValues_ok_forall2 _ _ sel2 _ hsel2⟩
              have hnone : getParam (baseParams form (locResolve form.region
                  form.district form.suburb regions cm) ++
                  [("property_type", PVal.str (String.intercalate "," sel))])
                  "sales_method" = none := by
                rw [getParam_append _ _ _ (getParam_baseParams_none form _ _ (Or.inr rfl))]
                simp [getParam]
              rw [getParam_append _ _ _ hnone]
              simp [getParam]
      · have hb : build_params_from_form form regions ptypes smethods cm =
            .ok (baseParams form (locResolve form.region form.district form.suburb
                  regions cm) ++
                [("property_type", .str (String.intercalate "," sel))],
              hintsOf form.region form.district form.suburb
                (locResolve form.region form.district form.suburb regions cm).1
                (locResolve form.region form.district form.suburb regions cm).2.1
                (locResolve form.region form.district form.suburb regions cm).2.2) := by
          unfold build_params_from_form
          simp [hpt, hsel, hsm]
        refine ⟨⟨fun h' => ?_, fun hrhs => ?_⟩, ?_⟩
        · obtain ⟨e', he'⟩ := h'
          rw [hb] at he'
          exact absurd he' (by simp)
        · exfalso
          rcases hrhs with ⟨v, hv, hnm⟩ | ⟨v, hv, hnm⟩
          · obtain ⟨e', he'⟩ := (selectValues_error_iff _ _ _).mpr
              ⟨v, by simpa [suppliedVals, hpt] using hv, hnm⟩
            rw [hsel] at he'
            exact absurd he' (by simp)
          · rw [suppliedVals, if_neg hsm] at hv
            exact absurd hv (by simp)
        · intro params hints h
          rw [hb] at h
          simp only [Except.ok.injEq, Prod.mk.injEq] at h
          obtain ⟨hparams, -⟩ := h
          subst hparams
          constructor
          · intro _
            refine ⟨sel, ?_, selectValues_ok_forall2 _ _ sel _ hsel⟩
            rw [getParam_append _ _ _ (getParam_baseParams_none form _ _ (Or.inl rfl))]
            simp [getParam]
          · intro hsm'
            exact absurd hsm' hsm
  · by_cases hsm : solTruthy form.sales_methods = true
    · cases hsel2 : selectValues "Unknown sales_method: "
          (solVals (form.sales_methods.getD (.many []))) (smethods.map keyOf) with
      | error e2 =>
        have hb : build_params_from_form form regions ptypes smethods cm =
            .error e2 := by
          unfold build_params_from_form
          simp [hpt, hsm, hsel2]
        refine ⟨⟨fun _ => ?_, fun _ => ⟨e2, hb⟩⟩, ?_⟩
        · right
          obtain ⟨v, hv, hnm⟩ := (selectValues_error_iff _ _ _).mp ⟨e2, hsel2⟩
          exact ⟨v, by simpa [suppliedVals, hsm] using hv, hnm⟩
        · intro params hints h
          rw [hb] at h
          exact absurd h (by simp)
      | ok sel2 =>
        have hb : build_params_from_form form regions ptypes smethods cm =
            .ok (baseParams form (locResolve form.region form.district form.suburb
                  regions cm) ++
                [("sales_method", .str (String.intercalate "," sel2))],
              hintsOf form.region form.district form.suburb
                (locResolve form.region form.district form.suburb regions cm).1
                (locResolve form.region form.district form.suburb regions cm).2.1
                (locResolve form.region form.district form.suburb regions cm).2.2) := by
          unfold build_params_from_form
          simp [hpt, hsm, hsel2]
        refine ⟨⟨fun h' => ?_, fun hrhs => ?_⟩, ?_⟩
        · obtain ⟨e', he'⟩ := h'
          rw [hb] at he'
          exact absurd he' (by simp)
        · exfalso
          rcases hrhs with ⟨v, hv, hnm⟩ | ⟨v, hv, hnm⟩
          · rw [suppliedVals, if_neg hpt] at hv
            exact absurd hv (by simp)
          · obtain ⟨e', he'⟩ := (selectValues_error_iff _ _ _).mpr
              ⟨v, by simpa [suppliedVals, hsm] using hv, hnm⟩
            rw [hsel2] at he'
            exact absurd he' (by simp)
        · intro params hints h
          rw [hb] at h
          simp only [Except.ok.injEq, Prod.mk.injEq] at h
          obtain ⟨hparams, -⟩ := h
          subst hparams
          constructor
          · intro hpt'
            exact absurd hpt' hpt
          · intro _
            refine ⟨sel2, ?_, selectValues_ok_forall2 _ _ sel2 _ hsel2⟩
            rw [getParam_append _ _ _ (getParam_baseParams_none form _ _ (Or.inr rfl))]
            simp [getParam]
    · have hb : build_params_from_form form regions ptypes smethods cm =
          .ok (baseParams form (locResolve form.region form.district form.suburb
                regions cm),
            hintsOf form.region form.district form.suburb
              (locResolve form.region form.district form.suburb regions cm).1
              (locResolve form.region form.district form.suburb regions cm).2.1
              (locResolve form.region form.district form.suburb regions cm).2.2) := by
        unfold build_params_from_form
        simp [hpt, hsm]
      refine ⟨⟨fun h' => ?_, fun hrhs => ?_⟩, ?_⟩
      · obtain ⟨e', he'⟩ := h'
        rw [hb] at he'
        exact absurd he' (by simp)
      · exfalso
        rcases hrhs with ⟨v, hv, hnm⟩ | ⟨v, hv, hnm⟩
        · rw [suppliedVals, if_neg hpt] at hv
          exact absurd hv (by simp)
        · rw [suppliedVals, if_neg hsm] at hv
          exact absurd hv (by simp)
      · intro params hints h
        refine ⟨fun hpt' => absurd hpt' hpt, fun hsm' => absurd hsm' hsm⟩

/-- Witness for C7: two supplied property types, one matching a key
exactly and one only case-insensitively, are both carried comma-joined
into the parameters. -/
theorem c7_unmappable_value_witness :
    ∃ sel, getParam [("property_type", PVal.str (String.intercalate "," sel))]
        "property_type" = some (.str (String.intercalate "," sel)) ∧
      List.Forall₂ (fun v k => k ∈ ptypesW.map keyOf ∧ pyLower k = pyLower v)
        (solVals (formPT.property_types.getD (.many []))) sel := by
  have h := ((c7_unmappable_value formPT [] ptypesW [] cmNone).2
    [("property_type", PVal.str "House,Apartment")]
    (hintsOf none none none none none none) (by rfl)).1 (by rfl)
  obtain ⟨sel, hget, hfa⟩ := h
  refine ⟨sel, ?_, hfa⟩
  have hsel : String.intercalate "," sel = "House,Apartment" := by
    have := hget
    simp [getParam] at this
    exact this.symm
  simp [getParam, hsel]

end PropertyRecommender
